import Mathlib

/-!
# Verification of `check-published-fixes.js`

A shallow embedding of the publication-check script. The script fetches a
routing configuration and a list of fix records, filters the records to the
deployed ones that carry a document path, and for each such record fetches a
per-document publication status and compares its live/preview `lastModified`
timestamps against the fix's `executedAt` timestamp, accumulating evidence of
publication.

JavaScript values that may be `undefined` are embedded as `Option`; JavaScript
truthiness of a possibly-absent string (`undefined` and `""` are falsy) is
`truthyStr`. The host's `Date` parsing and comparison are modelled by
`parseDate`/`isDateAfter`; HTTP transports are modelled as function parameters
(`net`, `transport`) supplying the response each call would yield.
-/

namespace CheckPublishedFixes

/-- Numeric value of a list of decimal digit characters. -/
def digitsToNat (cs : List Char) : Nat :=
  cs.foldl (fun n c => n * 10 + (c.toNat - 48)) 0

/-- Read exactly `k` decimal digits from the front of `cs`; return their value
and the rest of the input. -/
def readDigits (k : Nat) (cs : List Char) : Option (Nat × List Char) :=
  let ds := cs.take k
  if ds.length = k ∧ ds.all Char.isDigit then some (digitsToNat ds, cs.drop k)
  else none

/-- Gregorian leap-year test. -/
def isLeapYear (y : Nat) : Bool :=
  (y % 4 == 0 && y % 100 != 0) || y % 400 == 0

/-- Number of days in month `m` of year `y`. -/
def daysInMonth (y m : Nat) : Nat :=
  if m = 2 then (if isLeapYear y then 29 else 28)
  else if m = 4 ∨ m = 6 ∨ m = 9 ∨ m = 11 then 30
  else 31

/-- Days since 1970-01-01 of the civil date `y-m-d` (proleptic Gregorian). -/
def daysFromCivil (y : Int) (m d : Nat) : Int :=
  let y2 : Int := if m ≤ 2 then y - 1 else y
  let era : Int := (if 0 ≤ y2 then y2 else y2 - 399) / 400
  let yoe : Int := y2 - era * 400
  let mp : Nat := (m + 9) % 12
  let doy : Int := (153 * mp + 2) / 5 + (d : Int) - 1
  let doe : Int := yoe * 365 + yoe / 4 - yoe / 100 + doy
  era * 146097 + doe - 719468

/-- Parse the fractional-seconds part after the `.`: one or more digits, of
which the first three give the millisecond value. Returns the milliseconds and
the unconsumed input. -/
def readFraction (cs : List Char) : Option (Nat × List Char) :=
  let ds := cs.takeWhile Char.isDigit
  if ds.length = 0 then none
  else
    let first3 := ds.take 3
    let ms := digitsToNat first3 *
      (if first3.length = 1 then 100 else if first3.length = 2 then 10 else 1)
    some (ms, cs.drop ds.length)

/-- Parse the UTC-offset suffix: empty (treated as UTC in this model), `Z`, or
`±HH:mm`. Returns the offset in minutes, or `none` when malformed. -/
def readOffset (cs : List Char) : Option Int :=
  match cs with
  | [] => some 0
  | ['Z'] => some 0
  | c :: r =>
    if c = '+' ∨ c = '-' then
      match readDigits 2 r with
      | some (oh, r2) =>
        match r2 with
        | ':' :: r3 =>
          match readDigits 2 r3 with
          | some (om, []) =>
            if oh ≤ 23 ∧ om ≤ 59 then
              some (if c = '-' then -((oh : Int) * 60 + om) else (oh : Int) * 60 + om)
            else none
          | _ => none
        | _ => none
      | none => none
    else none

/-- Parse the time-of-day part `THH:mm[:ss[.fff]]` followed by the offset, or
an empty input (midnight). Returns `(hours, minutes, seconds, milliseconds,
offset in minutes)`. -/
def readTime (cs : List Char) : Option (Nat × Nat × Nat × Nat × Int) :=
  match cs with
  | [] => some (0, 0, 0, 0, 0)
  | 'T' :: r =>
    match readDigits 2 r with
    | some (hh, ':' :: r2) =>
      match readDigits 2 r2 with
      | some (mi, r3) =>
        let rest :=
          match r3 with
          | ':' :: r4 =>
            match readDigits 2 r4 with
            | some (ss, '.' :: r5) =>
              match readFraction r5 with
              | some (ms, r6) => some (ss, ms, r6)
              | none => none
            | some (ss, r5) => some (ss, 0, r5)
            | none => none
          | _ => some (0, 0, r3)
        match rest with
        | some (ss, ms, r7) =>
          match readOffset r7 with
          | some off =>
            if hh ≤ 23 ∧ mi ≤ 59 ∧ ss ≤ 59 then some (hh, mi, ss, ms, off)
            else none
          | none => none
        | none => none
      | none => none
    | _ => none
  | _ => none

/-- Parse the calendar-date part `YYYY[-MM[-DD]]`; returns the date and the
unconsumed input. -/
def readCalendarDate (cs : List Char) : Option (Nat × Nat × Nat × List Char) :=
  match readDigits 4 cs with
  | none => none
  | some (y, r1) =>
    match r1 with
    | '-' :: r2 =>
      match readDigits 2 r2 with
      | none => none
      | some (m, r3) =>
        match r3 with
        | '-' :: r4 =>
          match readDigits 2 r4 with
          | none => none
          | some (d, r5) => some (y, m, d, r5)
        | _ => some (y, m, 1, r3)
    | _ => some (y, 1, 1, r1)

/-- Modelled from the spec: `parseDate` in the source wraps the host's
`new Date(dateString)`, whose parser is not repository code; the spec fixes it
to "standard ISO-8601 parsing semantics". This model accepts the ECMA-262 date
time string format `YYYY[-MM[-DD]][THH:mm[:ss[.fff…]]][Z|±HH:mm]` (the host
timezone is modelled as UTC, so a missing offset means UTC) and returns the
epoch milliseconds, or `none` for an unparseable string (the host's
`Invalid Date`, whose time value is NaN). -/
def parseDate (s : String) : Option Int :=
  match readCalendarDate s.toList with
  | none => none
  | some (y, m, d, rest) =>
    if 1 ≤ m ∧ m ≤ 12 ∧ 1 ≤ d ∧ d ≤ daysInMonth y m then
      match readTime rest with
      | none => none
      | some (hh, mi, ss, ms, off) =>
        some (daysFromCivil y m d * 86400000 + (hh : Int) * 3600000 +
          (mi : Int) * 60000 + (ss : Int) * 1000 + (ms : Int) - off * 60000)
    else none

/-- The time value of a possibly-absent date string: `new Date(undefined)` is
an invalid date, so an absent argument parses to `none` like any unparseable
string. -/
def parseDateVal : Option String → Option Int
  | some s => parseDate s
  | none => none

/-- `isDateAfter(dateString1, dateString2)`: parse both and test
`date1 > date2`. In JavaScript the `>` comparison of `Date` objects compares
their numeric time values and is false whenever either is NaN (an invalid
date), which the `none` branches embed. Arguments are possibly-absent strings
because the call sites may pass `undefined` through. -/
def isDateAfter (dateString1 dateString2 : Option String) : Bool :=
  match parseDateVal dateString1, parseDateVal dateString2 with
  | some d1, some d2 => decide (d1 > d2)
  | _, _ => false

/-- JavaScript truthiness of a possibly-absent string: `undefined` and the
empty string are falsy, every other string is truthy. -/
def truthyStr : Option String → Bool
  | none => false
  | some s => s != ""

/-- The `changeDetails` sub-object of a fetched fix record. -/
structure ChangeDetails where
  documentPath : Option String
deriving DecidableEq, Repr

/-- A fix object as it flows through the script. Raw records fetched from the
tracking service carry `id`, `status`, `executedAt` and `changeDetails`; the
extraction step (`extractFix`) produces objects carrying only `id`,
`executedAt` and a top-level `documentPath`. Absent fields are `none`, as in a
JavaScript object that lacks the property. -/
structure FixRecord where
  id : Option String := none
  status : Option String := none
  executedAt : Option String := none
  changeDetails : Option ChangeDetails := none
  documentPath : Option String := none
deriving DecidableEq, Repr

/-- The `.map` stage of the filter pipeline: build
`{id, executedAt, documentPath: fix.changeDetails?.documentPath}`. The result
object has no `status` and no `changeDetails` property. -/
def extractFix (fix : FixRecord) : FixRecord :=
  { id := fix.id
    executedAt := fix.executedAt
    documentPath := fix.changeDetails.bind ChangeDetails.documentPath }

/-- Step 3 of `checkPublishedFixes`: keep records with
`fix.status === 'DEPLOYED'`, extract `{id, executedAt, documentPath}`, then
keep only those whose `documentPath` is truthy. -/
def deployedFixes (fixes : List FixRecord) : List FixRecord :=
  ((fixes.filter (fun fix => fix.status == some "DEPLOYED")).map extractFix).filter
    (fun fix => truthyStr fix.documentPath)

/-- One branch (`live` or `preview`) of a Helix status response. -/
structure StatusBranch where
  lastModified : Option String
  url : Option String
deriving DecidableEq, Repr

/-- The body of a Helix admin status response; either branch may be absent. -/
structure PublicationStatus where
  live : Option StatusBranch
  preview : Option StatusBranch
deriving DecidableEq, Repr

/-- An entry pushed onto `livePublishedPages` inside the loop. -/
structure LiveEvidence where
  documentPath : Option String
  executedAt : Option String
  liveLastModified : String
  liveUrl : Option String
deriving DecidableEq, Repr

/-- An entry pushed onto `previewPublishedPages` inside the loop. -/
structure PreviewEvidence where
  documentPath : Option String
  executedAt : Option String
  previewLastModified : String
  previewUrl : Option String
deriving DecidableEq, Repr

/-- `cleanPath`: `documentPath.replace(/^\/+/, '')` removes every leading
slash. -/
def cleanPath (documentPath : String) : String :=
  String.mk (documentPath.toList.dropWhile (fun c => c = '/'))

/-- `getHelixStatus(documentPath, rso)`: clean the path, perform the request,
and parse the body. The transport (host `fetch` plus `response.json()`) is a
parameter; `Except.error` covers a non-2xx response (the function throws and
catches its own error), a network error, and a malformed body, all of which
the `catch` turns into `null` (`none`). -/
def getHelixStatus (documentPath : String)
    (transport : String → Except String PublicationStatus) :
    Option PublicationStatus :=
  match transport (cleanPath documentPath) with
  | Except.ok status => some status
  | Except.error _ => none

/-- The live-branch check of one loop iteration: when
`status.live?.lastModified` is truthy and
`isDateAfter(status.live.lastModified, fix.executedAt)` holds, the evidence
entry that is pushed; otherwise `none` (only logging happens). -/
def liveEvidenceFor (fix : FixRecord) (status : PublicationStatus) :
    Option LiveEvidence :=
  match status.live with
  | none => none
  | some br =>
    match br.lastModified with
    | none => none
    | some lm =>
      if lm = "" then none
      else if isDateAfter (some lm) fix.executedAt then
        some { documentPath := fix.documentPath
               executedAt := fix.executedAt
               liveLastModified := lm
               liveUrl := br.url }
      else none

/-- The preview-branch check of one loop iteration, symmetric to
`liveEvidenceFor`. -/
def previewEvidenceFor (fix : FixRecord) (status : PublicationStatus) :
    Option PreviewEvidence :=
  match status.preview with
  | none => none
  | some br =>
    match br.lastModified with
    | none => none
    | some lm =>
      if lm = "" then none
      else if isDateAfter (some lm) fix.executedAt then
        some { documentPath := fix.documentPath
               executedAt := fix.executedAt
               previewLastModified := lm
               previewUrl := br.url }
      else none

/-- Step 4 of `checkPublishedFixes`: the sequential loop over the deployed
fixes. `net fix` is the awaited result of `getHelixStatus(fix.documentPath,
rso)` for that iteration (`none` when the status fetch failed). A failed fetch
`continue`s; otherwise the live and preview checks may each append one
evidence entry, and the loop proceeds to the next record. -/
def checkLoop (net : FixRecord → Option PublicationStatus) :
    List FixRecord → List LiveEvidence → List PreviewEvidence →
    List LiveEvidence × List PreviewEvidence
  | [], livePublishedPages, previewPublishedPages =>
    (livePublishedPages, previewPublishedPages)
  | fix :: rest, livePublishedPages, previewPublishedPages =>
    match net fix with
    | none => checkLoop net rest livePublishedPages previewPublishedPages
    | some status =>
      checkLoop net rest
        (livePublishedPages ++ (liveEvidenceFor fix status).toList)
        (previewPublishedPages ++ (previewEvidenceFor fix status).toList)

/-- The `details` field of the returned result. -/
structure Details where
  live : List LiveEvidence
  preview : List PreviewEvidence
deriving DecidableEq, Repr

/-- The structured result returned for programmatic use. -/
structure CheckResult where
  livePublishedPages : List (Option String)
  previewPublishedPages : List (Option String)
  details : Details
deriving DecidableEq, Repr

/-- `checkPublishedFixes` from the filter stage on: filter the fetched records,
return early (`undefined`, embedded as `none`) when no deployed fix with a
document path remains, otherwise run the status loop and return the structured
result object. -/
def checkPublishedFixes (net : FixRecord → Option PublicationStatus)
    (fixes : List FixRecord) : Option CheckResult :=
  let deployed := deployedFixes fixes
  if deployed.length = 0 then none
  else
    let lists := checkLoop net deployed [] []
    some { livePublishedPages := lists.1.map LiveEvidence.documentPath
           previewPublishedPages := lists.2.map PreviewEvidence.documentPath
           details := { live := lists.1, preview := lists.2 } }

/-- The per-record live contribution of a full loop run: the evidence entries
record `fix` adds to the live list (empty when the status fetch fails). -/
def liveContribution (net : FixRecord → Option PublicationStatus)
    (fix : FixRecord) : List LiveEvidence :=
  match net fix with
  | none => []
  | some status => (liveEvidenceFor fix status).toList

/-- The per-record preview contribution of a full loop run. -/
def previewContribution (net : FixRecord → Option PublicationStatus)
    (fix : FixRecord) : List PreviewEvidence :=
  match net fix with
  | none => []
  | some status => (previewEvidenceFor fix status).toList

/-- Concrete fetched record used by witnesses: a deployed fix with a document
path, as returned by the fixes endpoint. -/
def sampleRawFix : FixRecord :=
  { id := some "fix-1"
    status := some "DEPLOYED"
    executedAt := some "2025-07-11T15:28:23.948Z"
    changeDetails := some { documentPath := some "/page-a" } }

/-- Concrete extracted fix record used by witnesses. -/
def sampleFix : FixRecord :=
  { id := some "fix-1"
    executedAt := some "2025-07-11T15:28:23.948Z"
    documentPath := some "/page-a" }

/-- Concrete live branch whose `lastModified` is after `sampleFix.executedAt`. -/
def sampleLiveBranch : StatusBranch :=
  { lastModified := some "2025-07-11T16:30:00.000Z"
    url := some "https://main--site--owner.aem.live/page-a" }

/-- Concrete preview branch whose `lastModified` is before
`sampleFix.executedAt`. -/
def samplePreviewBranch : StatusBranch :=
  { lastModified := some "2025-07-11T10:00:00.000Z"
    url := some "https://main--site--owner.aem.page/page-a" }

/-- Concrete preview branch whose `lastModified` is after
`sampleFix.executedAt`. -/
def samplePreviewBranchLate : StatusBranch :=
  { lastModified := some "2025-07-11T16:45:00.000Z"
    url := some "https://main--site--owner.aem.page/page-a" }

/-- Concrete publication status used by witnesses. -/
def sampleStatus : PublicationStatus :=
  { live := some sampleLiveBranch, preview := some samplePreviewBranch }

/-- Concrete publication status agreeing with `sampleStatus` on the live
branch but differing on the preview branch. -/
def sampleStatusLate : PublicationStatus :=
  { live := some sampleLiveBranch, preview := some samplePreviewBranchLate }

/-- Concrete status oracle answering `sampleStatus` for every document. -/
def sampleNet : FixRecord → Option PublicationStatus := fun _ => some sampleStatus

/-- Concrete status oracle answering `sampleStatusLate` for every document. -/
def sampleNetLate : FixRecord → Option PublicationStatus := fun _ => some sampleStatusLate

/-- The live-evidence entry `sampleFix` produces under `sampleNet`. -/
def sampleLiveEvidence : LiveEvidence :=
  { documentPath := some "/page-a"
    executedAt := some "2025-07-11T15:28:23.948Z"
    liveLastModified := "2025-07-11T16:30:00.000Z"
    liveUrl := some "https://main--site--owner.aem.live/page-a" }

theorem parseDate_empty : parseDate "" = none := rfl

theorem isDateAfter_left_none {a b : Option String} (h : parseDateVal a = none) :
    isDateAfter a b = false := by
  unfold isDateAfter
  rw [h]

theorem isDateAfter_right_none {a b : Option String} (h : parseDateVal b = none) :
    isDateAfter a b = false := by
  unfold isDateAfter
  rw [h]
  cases parseDateVal a <;> rfl

theorem liveEvidenceFor_none (fix : FixRecord) (status : PublicationStatus)
    (h : ∀ br lm, status.live = some br → br.lastModified = some lm →
      isDateAfter (some lm) fix.executedAt = false) :
    liveEvidenceFor fix status = none := by
  unfold liveEvidenceFor
  cases hl : status.live with
  | none => rfl
  | some br =>
    cases hm : br.lastModified with
    | none => simp [hm]
    | some lm =>
      by_cases he : lm = ""
      · simp [hm, he]
      · simp [hm, he, h br lm hl hm]

theorem previewEvidenceFor_none (fix : FixRecord) (status : PublicationStatus)
    (h : ∀ br lm, status.preview = some br → br.lastModified = some lm →
      isDateAfter (some lm) fix.executedAt = false) :
    previewEvidenceFor fix status = none := by
  unfold previewEvidenceFor
  cases hl : status.preview with
  | none => rfl
  | some br =>
    cases hm : br.lastModified with
    | none => simp [hm]
    | some lm =>
      by_cases he : lm = ""
      · simp [hm, he]
      · simp [hm, he, h br lm hl hm]

/-- C2: for timestamp pairs that both parse, `isDateAfter` is exactly the
strict chronological order — later on the left yields `true`, the swapped
comparison yields `false` — and every timestamp compared with itself yields
`false`. -/
theorem isDateAfter_strict_order :
    (∀ (a b : String) (x y : Int), parseDate a = some x → parseDate b = some y →
      y < x → isDateAfter (some a) (some b) = true ∧
        isDateAfter (some b) (some a) = false) ∧
    (∀ a : Option String, isDateAfter a a = false) := by
  constructor
  · intro a b x y ha hb hlt
    have ha' : parseDateVal (some a) = some x := ha
    have hb' : parseDateVal (some b) = some y := hb
    constructor
    · unfold isDateAfter
      rw [ha', hb']
      exact decide_eq_true hlt
    · unfold isDateAfter
      rw [ha', hb']
      exact decide_eq_false (lt_asymm hlt)
  · intro a
    cases a with
    | none => rfl
    | some s =>
      cases h : parseDate s with
      | none => exact isDateAfter_left_none h
      | some v =>
        have h' : parseDateVal (some s) = some v := h
        unfold isDateAfter
        rw [h']
        exact decide_eq_false (lt_irrefl v)

/-- C2 witness at the spec's example timestamps. -/
theorem isDateAfter_strict_order_witness :
    isDateAfter (some "2025-07-11T16:30:00.000Z")
        (some "2025-07-11T15:28:23.948Z") = true ∧
    isDateAfter (some "2025-07-11T15:28:23.948Z")
        (some "2025-07-11T16:30:00.000Z") = false :=
  isDateAfter_strict_order.1 "2025-07-11T16:30:00.000Z" "2025-07-11T15:28:23.948Z"
    1752251400000 1752247703948 (by decide) (by decide) (by decide)

/-- C3: when either timestamp is unparseable the comparison is `false`, and an
unparseable `executedAt` or `lastModified` therefore never yields evidence:
the record is silently suppressed instead of failing the run. -/
theorem isDateAfter_unparseable_false :
    (∀ a b : String, parseDate a = none ∨ parseDate b = none →
      isDateAfter (some a) (some b) = false) ∧
    (∀ (fix : FixRecord) (status : PublicationStatus),
      parseDateVal fix.executedAt = none →
      liveEvidenceFor fix status = none ∧ previewEvidenceFor fix status = none) ∧
    (∀ (fix : FixRecord) (status : PublicationStatus) (br : StatusBranch)
      (lm : String), status.live = some br → br.lastModified = some lm →
      parseDate lm = none → liveEvidenceFor fix status = none) ∧
    (∀ (fix : FixRecord) (status : PublicationStatus) (br : StatusBranch)
      (lm : String), status.preview = some br → br.lastModified = some lm →
      parseDate lm = none → previewEvidenceFor fix status = none) := by
  refine ⟨?_, ?_, ?_, ?_⟩
  · intro a b h
    cases h with
    | inl h => exact isDateAfter_left_none h
    | inr h => exact isDateAfter_right_none h
  · intro fix status h
    exact ⟨liveEvidenceFor_none fix status (fun _ _ _ _ => isDateAfter_right_none h),
      previewEvidenceFor_none fix status (fun _ _ _ _ => isDateAfter_right_none h)⟩
  · intro fix status br lm hl hm hp
    refine liveEvidenceFor_none fix status (fun br2 lm2 hl2 hm2 => ?_)
    rw [hl] at hl2
    cases hl2
    rw [hm] at hm2
    cases hm2
    exact isDateAfter_left_none hp
  · intro fix status br lm hl hm hp
    refine previewEvidenceFor_none fix status (fun br2 lm2 hl2 hm2 => ?_)
    rw [hl] at hl2
    cases hl2
    rw [hm] at hm2
    cases hm2
    exact isDateAfter_left_none hp

/-- C3 witness: an unparseable left timestamp compares as `false`. -/
theorem isDateAfter_unparseable_false_witness :
    isDateAfter (some "not-a-date") (some "2025-07-11T15:28:23.948Z") = false :=
  isDateAfter_unparseable_false.1 "not-a-date" "2025-07-11T15:28:23.948Z"
    (Or.inl (by decide))

theorem liveEvidenceFor_eq_some_iff (fix : FixRecord) (status : PublicationStatus)
    (ev : LiveEvidence) :
    liveEvidenceFor fix status = some ev ↔
      ∃ br lm, status.live = some br ∧ br.lastModified = some lm ∧
        isDateAfter (some lm) fix.executedAt = true ∧
        ev = { documentPath := fix.documentPath, executedAt := fix.executedAt,
               liveLastModified := lm, liveUrl := br.url } := by
  obtain ⟨liveBr, previewBr⟩ := status
  cases liveBr with
  | none => simp [liveEvidenceFor]
  | some br =>
    obtain ⟨lmOpt, url⟩ := br
    cases lmOpt with
    | none => simp [liveEvidenceFor]
    | some lm =>
      by_cases he : lm = ""
      · subst he
        simp [liveEvidenceFor,
          isDateAfter_left_none (a := some "") (b := fix.executedAt) rfl]
      · cases hafter : isDateAfter (some lm) fix.executedAt with
        | false => simp [liveEvidenceFor, he, hafter]
        | true =>
          simp only [liveEvidenceFor, he, hafter]
          constructor
          · intro h2
            exact ⟨⟨some lm, url⟩, lm, rfl, rfl, hafter,
              ((Option.some.inj h2)).symm⟩
          · rintro ⟨br2, lm2, hb2, hm2, h3, rfl⟩
            obtain rfl := Option.some.inj hb2
            obtain rfl := Option.some.inj hm2
            rfl

theorem previewEvidenceFor_eq_some_iff (fix : FixRecord)
    (status : PublicationStatus) (ev : PreviewEvidence) :
    previewEvidenceFor fix status = some ev ↔
      ∃ br lm, status.preview = some br ∧ br.lastModified = some lm ∧
        isDateAfter (some lm) fix.executedAt = true ∧
        ev = { documentPath := fix.documentPath, executedAt := fix.executedAt,
               previewLastModified := lm, previewUrl := br.url } := by
  obtain ⟨liveBr, previewBr⟩ := status
  cases previewBr with
  | none => simp [previewEvidenceFor]
  | some br =>
    obtain ⟨lmOpt, url⟩ := br
    cases lmOpt with
    | none => simp [previewEvidenceFor]
    | some lm =>
      by_cases he : lm = ""
      · subst he
        simp [previewEvidenceFor,
          isDateAfter_left_none (a := some "") (b := fix.executedAt) rfl]
      · cases hafter : isDateAfter (some lm) fix.executedAt with
        | false => simp [previewEvidenceFor, he, hafter]
        | true =>
          simp only [previewEvidenceFor, he, hafter]
          constructor
          · intro h2
            exact ⟨⟨some lm, url⟩, lm, rfl, rfl, hafter,
              ((Option.some.inj h2)).symm⟩
          · rintro ⟨br2, lm2, hb2, hm2, h3, rfl⟩
            obtain rfl := Option.some.inj hb2
            obtain rfl := Option.some.inj hm2
            rfl

theorem checkLoop_cons (net : FixRecord → Option PublicationStatus)
    (fix : FixRecord) (rest : List FixRecord) (l : List LiveEvidence)
    (p : List PreviewEvidence) :
    checkLoop net (fix :: rest) l p =
      checkLoop net rest (l ++ liveContribution net fix)
        (p ++ previewContribution net fix) := by
  cases h : net fix with
  | none => simp [checkLoop, h, liveContribution, previewContribution]
  | some status => simp [checkLoop, h, liveContribution, previewContribution]

theorem checkLoop_eq (net : FixRecord → Option PublicationStatus)
    (fixes : List FixRecord) :
    ∀ (l : List LiveEvidence) (p : List PreviewEvidence),
    checkLoop net fixes l p =
      (l ++ fixes.flatMap (liveContribution net),
       p ++ fixes.flatMap (previewContribution net)) := by
  induction fixes with
  | nil => intro l p; simp [checkLoop]
  | cons fix rest ih =>
    intro l p
    rw [checkLoop_cons, ih]
    simp [List.flatMap_cons, List.append_assoc]

/-- C1: when the status of a qualifying fix was fetched, one loop iteration
appends exactly the record's contributions, and an entry is contributed to the
live (resp. preview) list exactly when that branch's `lastModified` is present
and `isDateAfter(lastModified, executedAt)` holds; the entry carries the
record's `documentPath` and `executedAt` together with the branch's
`lastModified` and `url`. -/
theorem evidence_entry_iff :
    ∀ (net : FixRecord → Option PublicationStatus) (fix : FixRecord)
      (status : PublicationStatus), net fix = some status →
      (∀ ev : LiveEvidence, ev ∈ liveContribution net fix ↔
        ∃ br lm, status.live = some br ∧ br.lastModified = some lm ∧
          isDateAfter (some lm) fix.executedAt = true ∧
          ev = { documentPath := fix.documentPath, executedAt := fix.executedAt,
                 liveLastModified := lm, liveUrl := br.url }) ∧
      (∀ ev : PreviewEvidence, ev ∈ previewContribution net fix ↔
        ∃ br lm, status.preview = some br ∧ br.lastModified = some lm ∧
          isDateAfter (some lm) fix.executedAt = true ∧
          ev = { documentPath := fix.documentPath, executedAt := fix.executedAt,
                 previewLastModified := lm, previewUrl := br.url }) ∧
      (∀ (rest : List FixRecord) (livePublishedPages : List LiveEvidence)
        (previewPublishedPages : List PreviewEvidence),
        checkLoop net (fix :: rest) livePublishedPages previewPublishedPages =
          checkLoop net rest (livePublishedPages ++ liveContribution net fix)
            (previewPublishedPages ++ previewContribution net fix)) := by
  intro net fix status h
  refine ⟨?_, ?_, fun rest l p => checkLoop_cons net fix rest l p⟩
  · intro ev
    rw [show liveContribution net fix = (liveEvidenceFor fix status).toList by
      simp [liveContribution, h]]
    rw [Option.mem_toList, Option.mem_def]
    exact liveEvidenceFor_eq_some_iff fix status ev
  · intro ev
    rw [show previewContribution net fix = (previewEvidenceFor fix status).toList by
      simp [previewContribution, h]]
    rw [Option.mem_toList, Option.mem_def]
    exact previewEvidenceFor_eq_some_iff fix status ev

/-- C1 witness: the sample fix and sample status produce exactly the sample
live evidence entry. -/
theorem evidence_entry_iff_witness :
    sampleLiveEvidence ∈ liveContribution sampleNet sampleFix :=
  ((evidence_entry_iff sampleNet sampleFix sampleStatus rfl).1
      sampleLiveEvidence).mpr
    ⟨sampleLiveBranch, "2025-07-11T16:30:00.000Z", rfl, rfl, by decide, rfl⟩

theorem truthyStr_iff (o : Option String) :
    truthyStr o = true ↔ ∃ s, o = some s ∧ s ≠ "" := by
  cases o with
  | none => simp [truthyStr]
  | some s => simp [truthyStr]

theorem filter_map_filter {α β : Type} (p : α → Bool) (f : α → β) (q : β → Bool)
    (l : List α) :
    ((l.filter p).map f).filter q = (l.filter (fun a => p a && q (f a))).map f := by
  induction l with
  | nil => rfl
  | cons a l ih =>
    by_cases hp : p a
    · by_cases hq : q (f a)
      · simp [List.filter_cons, hp, hq, ih]
      · simp [List.filter_cons, hp, hq, ih]
    · simp [List.filter_cons, hp, ih]

theorem deployedFixes_eq (fixes : List FixRecord) :
    deployedFixes fixes =
      (fixes.filter (fun r => r.status == some "DEPLOYED" &&
        truthyStr (r.changeDetails.bind ChangeDetails.documentPath))).map
        extractFix :=
  filter_map_filter _ extractFix _ fixes

/-- C4: a record reaches the status-check stage only when its status is
`DEPLOYED` and its `documentPath` is present (truthy): the list the loop
iterates over is exactly the extraction of the records satisfying both
predicates, and every element of it originates from such a record. -/
theorem statusCheck_only_deployed_with_path :
    ∀ fixes : List FixRecord,
      deployedFixes fixes =
        (fixes.filter (fun r => r.status == some "DEPLOYED" &&
          truthyStr (r.changeDetails.bind ChangeDetails.documentPath))).map
          extractFix ∧
      ∀ f ∈ deployedFixes fixes, ∃ r, r ∈ fixes ∧ r.status = some "DEPLOYED" ∧
        (∃ cd pth, r.changeDetails = some cd ∧ cd.documentPath = some pth ∧
          pth ≠ "") ∧ f = extractFix r := by
  intro fixes
  refine ⟨deployedFixes_eq fixes, ?_⟩
  intro f hf
  rw [deployedFixes_eq fixes] at hf
  obtain ⟨r, hr, rfl⟩ := List.mem_map.mp hf
  obtain ⟨hmem, hcond⟩ := List.mem_filter.mp hr
  obtain ⟨hst, htr⟩ := Bool.and_eq_true_iff.mp hcond
  refine ⟨r, hmem, eq_of_beq hst, ?_, rfl⟩
  obtain ⟨s, hbind, hne⟩ := (truthyStr_iff _).mp htr
  cases hcd : r.changeDetails with
  | none => rw [hcd] at hbind; simp at hbind
  | some cd =>
    rw [hcd] at hbind
    simp only [Option.some_bind] at hbind
    exact ⟨cd, s, rfl, hbind, hne⟩

/-- C4 witness: the sample deployed record reaches the status-check stage and
originates from a DEPLOYED record with a present document path. -/
theorem statusCheck_only_deployed_with_path_witness :
    ∃ r, r ∈ [sampleRawFix] ∧ r.status = some "DEPLOYED" ∧
      (∃ cd pth, r.changeDetails = some cd ∧ cd.documentPath = some pth ∧
        pth ≠ "") ∧ sampleFix = extractFix r :=
  (statusCheck_only_deployed_with_path [sampleRawFix]).2 sampleFix (by decide)

/-- C5 counterexample: the filtering stage is not idempotent. Applied once to
a single deployed record with a document path it keeps the record; applied to
its own output it returns the empty list, because the extraction step dropped
the `status` field. -/
theorem deployedFixes_not_idempotent :
    deployedFixes (deployedFixes [sampleRawFix]) ≠ deployedFixes [sampleRawFix] := by
  decide

/-- C5 amended: applying the filtering stage to its own output yields the
empty list (extraction drops the `status` field, so no output record passes
the `status == DEPLOYED` filter); the stage's selection predicate on the
output side is idempotent — re-filtering the output by a truthy
`documentPath` leaves it unchanged. -/
theorem deployedFixes_self_apply :
    ∀ fixes : List FixRecord,
      deployedFixes (deployedFixes fixes) = [] ∧
      (deployedFixes fixes).filter (fun f => truthyStr f.documentPath) =
        deployedFixes fixes := by
  intro fixes
  constructor
  · have hstat : ∀ f ∈ deployedFixes fixes, f.status = none := by
      intro f hf
      rw [deployedFixes_eq] at hf
      obtain ⟨r, -, rfl⟩ := List.mem_map.mp hf
      rfl
    have h1 : (deployedFixes fixes).filter
        (fun fix => fix.status == some "DEPLOYED") = [] := by
      rw [List.filter_eq_nil_iff]
      intro f hf
      rw [hstat f hf]
      decide
    rw [show deployedFixes (deployedFixes fixes) =
      ((((deployedFixes fixes).filter
        (fun fix => fix.status == some "DEPLOYED")).map extractFix).filter
        (fun fix => truthyStr fix.documentPath)) from rfl]
    rw [h1]
    rfl
  · rw [List.filter_eq_self]
    intro f hf
    unfold deployedFixes at hf
    have hq := List.of_mem_filter hf
    exact hq

/-- C6: a failing status call yields an absent result rather than raising, and
a record whose status result is absent contributes no evidence (live or
preview) while the loop continues with the remaining records unchanged. -/
theorem statusFailure_skips_record :
    (∀ (documentPath : String)
      (transport : String → Except String PublicationStatus) (e : String),
      transport (cleanPath documentPath) = Except.error e →
      getHelixStatus documentPath transport = none) ∧
    (∀ (net : FixRecord → Option PublicationStatus) (fix : FixRecord)
      (rest : List FixRecord) (l : List LiveEvidence)
      (p : List PreviewEvidence), net fix = none →
      checkLoop net (fix :: rest) l p = checkLoop net rest l p ∧
      liveContribution net fix = [] ∧ previewContribution net fix = []) := by
  constructor
  · intro documentPath transport e he
    unfold getHelixStatus
    rw [he]
  · intro net fix rest l p h
    refine ⟨?_, ?_, ?_⟩
    · simp [checkLoop, h]
    · simp [liveContribution, h]
    · simp [previewContribution, h]

/-- C6 witness: a transport error yields an absent status result. -/
theorem statusFailure_skips_record_witness :
    getHelixStatus "/page-a" (fun _ => Except.error "HTTP 404") = none :=
  statusFailure_skips_record.1 "/page-a" (fun _ => Except.error "HTTP 404")
    "HTTP 404" rfl

theorem liveContribution_length_le (net : FixRecord → Option PublicationStatus)
    (fix : FixRecord) : (liveContribution net fix).length ≤ 1 := by
  unfold liveContribution
  cases net fix with
  | none => simp
  | some status => cases h : liveEvidenceFor fix status <;> simp [h]

theorem previewContribution_length_le
    (net : FixRecord → Option PublicationStatus) (fix : FixRecord) :
    (previewContribution net fix).length ≤ 1 := by
  unfold previewContribution
  cases net fix with
  | none => simp
  | some status => cases h : previewEvidenceFor fix status <;> simp [h]

theorem mem_liveContribution_isAfter (net : FixRecord → Option PublicationStatus)
    (fix : FixRecord) (ev : LiveEvidence) (h : ev ∈ liveContribution net fix) :
    isDateAfter (some ev.liveLastModified) fix.executedAt = true := by
  unfold liveContribution at h
  cases hn : net fix with
  | none => rw [hn] at h; simp at h
  | some status =>
    rw [hn, Option.mem_toList, Option.mem_def] at h
    obtain ⟨br, lm, -, -, hafter, rfl⟩ :=
      (liveEvidenceFor_eq_some_iff fix status ev).mp h
    exact hafter

theorem mem_previewContribution_isAfter
    (net : FixRecord → Option PublicationStatus) (fix : FixRecord)
    (ev : PreviewEvidence) (h : ev ∈ previewContribution net fix) :
    isDateAfter (some ev.previewLastModified) fix.executedAt = true := by
  unfold previewContribution at h
  cases hn : net fix with
  | none => rw [hn] at h; simp at h
  | some status =>
    rw [hn, Option.mem_toList, Option.mem_def] at h
    obtain ⟨br, lm, -, -, hafter, rfl⟩ :=
      (previewEvidenceFor_eq_some_iff fix status ev).mp h
    exact hafter

/-- C7: invariant of the processing loop — the accumulators grow exactly by
the per-record contributions, each record contributes at most one live entry
and at most one preview entry, and an entry is contributed only when the
respective `lastModified`-after-`executedAt` comparison holds. -/
theorem evidence_loop_invariant :
    ∀ (net : FixRecord → Option PublicationStatus) (fixes : List FixRecord)
      (livePublishedPages : List LiveEvidence)
      (previewPublishedPages : List PreviewEvidence),
      checkLoop net fixes livePublishedPages previewPublishedPages =
        (livePublishedPages ++ fixes.flatMap (liveContribution net),
         previewPublishedPages ++ fixes.flatMap (previewContribution net)) ∧
      (∀ fix, (liveContribution net fix).length ≤ 1 ∧
        (previewContribution net fix).length ≤ 1) ∧
      (∀ fix ev, ev ∈ liveContribution net fix →
        isDateAfter (some ev.liveLastModified) fix.executedAt = true) ∧
      (∀ fix ev, ev ∈ previewContribution net fix →
        isDateAfter (some ev.previewLastModified) fix.executedAt = true) :=
  fun net fixes l p =>
    ⟨checkLoop_eq net fixes l p,
     fun fix => ⟨liveContribution_length_le net fix,
       previewContribution_length_le net fix⟩,
     mem_liveContribution_isAfter net, mem_previewContribution_isAfter net⟩

/-- C7 witness: the sample record's one live entry satisfies the comparison. -/
theorem evidence_loop_invariant_witness :
    isDateAfter (some sampleLiveEvidence.liveLastModified)
      sampleFix.executedAt = true :=
  (evidence_loop_invariant sampleNet [sampleFix] [] []).2.2.1 sampleFix
    sampleLiveEvidence (by decide)

theorem flatMap_live_docPaths_sublist (net : FixRecord → Option PublicationStatus)
    (fixes : List FixRecord) :
    List.Sublist
      ((fixes.flatMap (liveContribution net)).map LiveEvidence.documentPath)
      (fixes.map FixRecord.documentPath) := by
  induction fixes with
  | nil => simp
  | cons fix rest ih =>
    rw [List.flatMap_cons, List.map_append, List.map_cons]
    have hc : (liveContribution net fix).map LiveEvidence.documentPath = [] ∨
        (liveContribution net fix).map LiveEvidence.documentPath =
          [fix.documentPath] := by
      unfold liveContribution
      cases hn : net fix with
      | none => left; rfl
      | some status =>
        cases hev : liveEvidenceFor fix status with
        | none => left; simp [hev]
        | some ev =>
          right
          obtain ⟨br, lm, -, -, -, rfl⟩ :=
            (liveEvidenceFor_eq_some_iff fix status ev).mp hev
          simp [hev]
    cases hc with
    | inl h => rw [h, List.nil_append]; exact List.Sublist.cons _ ih
    | inr h => rw [h]; exact List.Sublist.cons₂ _ ih

theorem flatMap_preview_docPaths_sublist
    (net : FixRecord → Option PublicationStatus) (fixes : List FixRecord) :
    List.Sublist
      ((fixes.flatMap (previewContribution net)).map PreviewEvidence.documentPath)
      (fixes.map FixRecord.documentPath) := by
  induction fixes with
  | nil => simp
  | cons fix rest ih =>
    rw [List.flatMap_cons, List.map_append, List.map_cons]
    have hc : (previewContribution net fix).map PreviewEvidence.documentPath = [] ∨
        (previewContribution net fix).map PreviewEvidence.documentPath =
          [fix.documentPath] := by
      unfold previewContribution
      cases hn : net fix with
      | none => left; rfl
      | some status =>
        cases hev : previewEvidenceFor fix status with
        | none => left; simp [hev]
        | some ev =>
          right
          obtain ⟨br, lm, -, -, -, rfl⟩ :=
            (previewEvidenceFor_eq_some_iff fix status ev).mp hev
          simp [hev]
    cases hc with
    | inl h => rw [h, List.nil_append]; exact List.Sublist.cons _ ih
    | inr h => rw [h]; exact List.Sublist.cons₂ _ ih

/-- C8: the evidence lists preserve the input order — the sequence of
documentPaths of each evidence list is a subsequence of the documentPaths of
the qualifying fix records in their fetched order. -/
theorem evidence_preserves_order :
    ∀ (net : FixRecord → Option PublicationStatus) (fixes : List FixRecord),
      List.Sublist
        (((checkLoop net (deployedFixes fixes) [] []).1).map
          LiveEvidence.documentPath)
        ((deployedFixes fixes).map FixRecord.documentPath) ∧
      List.Sublist
        (((checkLoop net (deployedFixes fixes) [] []).2).map
          PreviewEvidence.documentPath)
        ((deployedFixes fixes).map FixRecord.documentPath) := by
  intro net fixes
  constructor
  · have h := flatMap_live_docPaths_sublist net (deployedFixes fixes)
    rw [checkLoop_eq]
    simpa using h
  · have h := flatMap_preview_docPaths_sublist net (deployedFixes fixes)
    rw [checkLoop_eq]
    simpa using h

theorem checkPublishedFixes_eq (net : FixRecord → Option PublicationStatus)
    (fixes : List FixRecord) :
    checkPublishedFixes net fixes =
      if (deployedFixes fixes).length = 0 then none
      else some
        { livePublishedPages := (checkLoop net (deployedFixes fixes) [] []).1.map
            LiveEvidence.documentPath
          previewPublishedPages := (checkLoop net (deployedFixes fixes) [] []).2.map
            PreviewEvidence.documentPath
          details := { live := (checkLoop net (deployedFixes fixes) [] []).1
                       preview := (checkLoop net (deployedFixes fixes) [] []).2 } } :=
  rfl

/-- C9 counterexample: with an empty fix list the run completes normally but
returns no structured result — the early return yields `undefined` (`none`),
so the claim that every normal completion returns the structured object fails
here. -/
theorem emptyRun_returns_no_result :
    ¬ ∃ r : CheckResult, checkPublishedFixes (fun _ => none) [] = some r := by
  rintro ⟨r, hr⟩
  rw [show checkPublishedFixes (fun _ => none) ([] : List FixRecord) = none
    from rfl] at hr
  exact Option.noConfusion hr

/-- C9 amended: when the qualifying set is nonempty, the run returns the
structured result whose `livePublishedPages` and `previewPublishedPages` are
exactly the documentPaths of the corresponding detail lists; when the
qualifying set is empty, the run reports zero results and returns no
structured result (`undefined`). -/
theorem checkPublishedFixes_result_shape :
    ∀ (net : FixRecord → Option PublicationStatus) (fixes : List FixRecord),
      (deployedFixes fixes = [] → checkPublishedFixes net fixes = none) ∧
      (deployedFixes fixes ≠ [] →
        ∃ r, checkPublishedFixes net fixes = some r ∧
          r.livePublishedPages = r.details.live.map LiveEvidence.documentPath ∧
          r.previewPublishedPages = r.details.preview.map
            PreviewEvidence.documentPath ∧
          r.details.live = (checkLoop net (deployedFixes fixes) [] []).1 ∧
          r.details.preview = (checkLoop net (deployedFixes fixes) [] []).2) := by
  intro net fixes
  constructor
  · intro h
    rw [checkPublishedFixes_eq, if_pos (by rw [h]; rfl)]
  · intro h
    have hlen : ¬ (deployedFixes fixes).length = 0 := by
      simpa [List.length_eq_zero] using h
    rw [checkPublishedFixes_eq, if_neg hlen]
    exact ⟨_, rfl, rfl, rfl, rfl, rfl⟩

/-- C9 witness: a nonempty qualifying set yields the structured result. -/
theorem checkPublishedFixes_result_shape_witness :
    ∃ r, checkPublishedFixes sampleNet [sampleRawFix] = some r ∧
      r.livePublishedPages = r.details.live.map LiveEvidence.documentPath ∧
      r.previewPublishedPages = r.details.preview.map
        PreviewEvidence.documentPath ∧
      r.details.live = (checkLoop sampleNet (deployedFixes [sampleRawFix]) [] []).1 ∧
      r.details.preview =
        (checkLoop sampleNet (deployedFixes [sampleRawFix]) [] []).2 :=
  (checkPublishedFixes_result_shape sampleNet [sampleRawFix]).2 (by decide)

theorem liveEvidenceFor_congr (fix : FixRecord) {s1 s2 : PublicationStatus}
    (h : s1.live = s2.live) : liveEvidenceFor fix s1 = liveEvidenceFor fix s2 := by
  unfold liveEvidenceFor
  rw [h]

theorem previewEvidenceFor_congr (fix : FixRecord) {s1 s2 : PublicationStatus}
    (h : s1.preview = s2.preview) :
    previewEvidenceFor fix s1 = previewEvidenceFor fix s2 := by
  unfold previewEvidenceFor
  rw [h]

theorem flatMap_congr {α β : Type} {f g : α → List β} (l : List α)
    (h : ∀ a ∈ l, f a = g a) : l.flatMap f = l.flatMap g := by
  induction l with
  | nil => rfl
  | cons a t ih =>
    rw [List.flatMap_cons, List.flatMap_cons, h a (List.mem_cons_self a t),
      ih (fun x hx => h x (List.mem_cons_of_mem a hx))]

/-- C10: live and preview classification are mutually independent — two status
oracles agreeing on every live branch produce the same live-evidence list
(changing preview branches leaves it unchanged), and symmetrically for the
preview-evidence list. -/
theorem live_preview_noninterference :
    ∀ (net net2 : FixRecord → Option PublicationStatus) (fixes : List FixRecord),
      ((∀ fix, (net fix).map PublicationStatus.live =
          (net2 fix).map PublicationStatus.live) →
        (checkLoop net fixes [] []).1 = (checkLoop net2 fixes [] []).1) ∧
      ((∀ fix, (net fix).map PublicationStatus.preview =
          (net2 fix).map PublicationStatus.preview) →
        (checkLoop net fixes [] []).2 = (checkLoop net2 fixes [] []).2) := by
  intro net net2 fixes
  constructor
  · intro h
    rw [checkLoop_eq, checkLoop_eq]
    show [] ++ fixes.flatMap (liveContribution net) =
      [] ++ fixes.flatMap (liveContribution net2)
    rw [List.nil_append, List.nil_append]
    refine flatMap_congr fixes (fun fix hmem => ?_)
    have hf := h fix
    unfold liveContribution
    cases h1 : net fix with
    | none =>
      rw [h1] at hf
      cases h2 : net2 fix with
      | none => rfl
      | some s2 => rw [h2] at hf; exact absurd hf (by simp)
    | some s1 =>
      rw [h1] at hf
      cases h2 : net2 fix with
      | none => rw [h2] at hf; exact absurd hf (by simp)
      | some s2 =>
        rw [h2] at hf
        have hlive : s1.live = s2.live := by simpa using hf
        show (liveEvidenceFor fix s1).toList = (liveEvidenceFor fix s2).toList
        rw [liveEvidenceFor_congr fix hlive]
  · intro h
    rw [checkLoop_eq, checkLoop_eq]
    show [] ++ fixes.flatMap (previewContribution net) =
      [] ++ fixes.flatMap (previewContribution net2)
    rw [List.nil_append, List.nil_append]
    refine flatMap_congr fixes (fun fix hmem => ?_)
    have hf := h fix
    unfold previewContribution
    cases h1 : net fix with
    | none =>
      rw [h1] at hf
      cases h2 : net2 fix with
      | none => rfl
      | some s2 => rw [h2] at hf; exact absurd hf (by simp)
    | some s1 =>
      rw [h1] at hf
      cases h2 : net2 fix with
      | none => rw [h2] at hf; exact absurd hf (by simp)
      | some s2 =>
        rw [h2] at hf
        have hpre : s1.preview = s2.preview := by simpa using hf
        show (previewEvidenceFor fix s1).toList = (previewEvidenceFor fix s2).toList
        rw [previewEvidenceFor_congr fix hpre]

/-- C10 witness: changing only the preview branch of every answer leaves the
live-evidence list unchanged. -/
theorem live_preview_noninterference_witness :
    (checkLoop sampleNet [sampleFix] [] []).1 =
      (checkLoop sampleNetLate [sampleFix] [] []).1 :=
  (live_preview_noninterference sampleNet sampleNetLate [sampleFix]).1
    (fun _ => rfl)

end CheckPublishedFixes
